import Mathlib

/-!
Verification development for the comment-tree manager and related UI state
logic of a blog frontend.  The definitions below are shallow embeddings of the
TypeScript source: the `Comment` interface and the tree operations
`updateComment`, `updateCommentLikes`, `addReplyToComment`,
`findParentUsername`, the local-state update of `handleDelete`, and the
`handleReplySubmit` dispatch, together with the comment-input text state and
the blog-detail fetch failure classification.
-/

/-- The `User` interface: `_id`, `username`, `email`, optional `role`. -/
structure User where
  uid : String
  username : String
  email : String
  role : Option String
deriving DecidableEq

/-- The `Comment` interface.  Fields in source order except that the recursive
`replies` field is placed last.  The optional `replies?: Comment[]` is modelled
as a plain list with `undefined` identified with `[]`: every branch of the
source that tests `if (comment.replies)` behaves on `undefined` exactly as it
does on `[]` up to deep equality, which is the notion of equality all the
specification's properties use. -/
inductive Comment where
  | mk (id : String) (text : String) (user : User) (createdAt : String)
       (likes : List String) (parentComment : Option String)
       (pinned : Option Bool) (edited : Option Bool) (editedAt : Option String)
       (replies : List Comment)

/-- Projection for the `_id` field. -/
def Comment._id : Comment → String
  | .mk i _ _ _ _ _ _ _ _ _ => i

/-- Projection for the `text` field (the spec's "body"). -/
def Comment.text : Comment → String
  | .mk _ t _ _ _ _ _ _ _ _ => t

/-- Projection for the `user` field. -/
def Comment.user : Comment → User
  | .mk _ _ u _ _ _ _ _ _ _ => u

/-- Projection for the `likes` field. -/
def Comment.likes : Comment → List String
  | .mk _ _ _ _ l _ _ _ _ _ => l

/-- Projection for the `replies` field. -/
def Comment.replies : Comment → List Comment
  | .mk _ _ _ _ _ _ _ _ _ r => r

/-- `Partial<Comment>`: each field is present (`some`) or absent (`none`).
The fields that are themselves optional in `Comment` can only be set to a
proper value by the callers in the source, never back to `undefined`. -/
structure Patch where
  _id : Option String
  text : Option String
  user : Option User
  createdAt : Option String
  likes : Option (List String)
  parentComment : Option (Option String)
  pinned : Option Bool
  edited : Option Bool
  editedAt : Option String
  replies : Option (List Comment)

/-- The shallow merge `{ ...comment, ...updates }` used by `updateComment`:
each field listed in the patch overrides, the rest are kept. -/
def applyPatch : Comment → Patch → Comment
  | .mk i t u ca l pc pin e ea r, p =>
    .mk (p._id.getD i) (p.text.getD t) (p.user.getD u) (p.createdAt.getD ca)
      (p.likes.getD l)
      (match p.parentComment with | some v => v | none => pc)
      (match p.pinned with | some v => some v | none => pin)
      (match p.edited with | some v => some v | none => e)
      (match p.editedAt with | some v => some v | none => ea)
      (p.replies.getD r)

/-- The patch `{body: b}` of the specification (only the `text` field). -/
def bodyPatch (b : String) : Patch :=
  ⟨none, some b, none, none, none, none, none, none, none, none⟩

/-- The patch `{likes: l}` (only the `likes` field). -/
def likesPatch (l : List String) : Patch :=
  ⟨none, none, none, none, some l, none, none, none, none, none⟩

/-- `updateComment(comments, commentId, updates)` (the spec's `patchNode`):
map over the forest; a node whose `_id` matches gets the shallow merge and its
subtree is not entered; otherwise the node is rebuilt with its replies
recursively processed. -/
def updateComment : List Comment → String → Patch → List Comment
  | [], _, _ => []
  | .mk i t u ca l pc pin e ea r :: rest, commentId, updates =>
    (if i = commentId then applyPatch (.mk i t u ca l pc pin e ea r) updates
     else .mk i t u ca l pc pin e ea (updateComment r commentId updates))
      :: updateComment rest commentId updates

/-- `updateCommentLikes(comments, commentId, newLikes)` (the spec's
`replaceLikes`): same traversal, the matched node's `likes` field is
replaced. -/
def updateCommentLikes : List Comment → String → List String → List Comment
  | [], _, _ => []
  | .mk i t u ca l pc pin e ea r :: rest, commentId, newLikes =>
    (if i = commentId then .mk i t u ca newLikes pc pin e ea r
     else .mk i t u ca l pc pin e ea (updateCommentLikes r commentId newLikes))
      :: updateCommentLikes rest commentId newLikes

/-- `addReplyToComment(comments, parentId, newComment)`: same traversal, the
matched node's replies get `newComment` appended at the end
(`[...comment.replies, newComment]`, or `[newComment]` when absent). -/
def addReplyToComment : List Comment → String → Comment → List Comment
  | [], _, _ => []
  | .mk i t u ca l pc pin e ea r :: rest, parentId, newComment =>
    (if i = parentId then .mk i t u ca l pc pin e ea (r ++ [newComment])
     else .mk i t u ca l pc pin e ea (addReplyToComment r parentId newComment))
      :: addReplyToComment rest parentId newComment

/-- The `setComments` update of `handleReplySubmit` (the spec's
`insertReply`): `if (!replyingTo)` — when `replyingTo` is falsy (`null` or
the empty string) the new comment is appended at top level, otherwise
`addReplyToComment` runs. -/
def insertReply (comments : List Comment) (replyingTo : Option String)
    (newComment : Comment) : List Comment :=
  match replyingTo with
  | none => comments ++ [newComment]
  | some parentId =>
    if parentId = "" then comments ++ [newComment]
    else addReplyToComment comments parentId newComment

/-- The `setComments` update of `handleDelete` (the spec's `removeNode`): a
top-level filter keeping the comments whose `_id` differs from the target and
whose direct replies contain no comment with the target `_id`
(`comment._id !== commentId && !comment.replies?.some(r => r._id === commentId)`). -/
def removeNode (comments : List Comment) (commentId : String) : List Comment :=
  comments.filter fun comment =>
    comment._id != commentId
      && !(comment.replies.any fun reply => reply._id == commentId)

/-- JavaScript truthiness of a `string | null` value: `null` and the empty
string are falsy. -/
def jsTruthy : Option String → Bool
  | none => false
  | some s => !(s == "")

/-- `findParentUsername(comments, parentId)` (the spec's
`findAncestorUsername`): returns `null` for a falsy `parentId`; otherwise a
depth-first loop returning the matching node's `user.username`, where a falsy
recursive result (`null` or the empty string, by `if (found)`) is discarded
and the search continues with the remaining siblings. -/
def findParentUsername : List Comment → Option String → Option String
  | _, none => none
  | [], some _ => none
  | .mk i _ u _ _ _ _ _ _ r :: rest, some parentId =>
    if parentId = "" then none
    else if i = parentId then some u.username
    else
      let found := findParentUsername r (some parentId)
      if jsTruthy found then found else findParentUsername rest (some parentId)

/-- Replace the `likes` field of a node. -/
def setLikes : Comment → List String → Comment
  | .mk i t u ca _ pc pin e ea r, l => .mk i t u ca l pc pin e ea r

/-- Replace the `text` field of a node. -/
def setText : Comment → String → Comment
  | .mk i _ u ca l pc pin e ea r, b => .mk i b u ca l pc pin e ea r

/-- Append one reply at the end of a node's children. -/
def appendReply : Comment → Comment → Comment
  | .mk i t u ca l pc pin e ea r, n => .mk i t u ca l pc pin e ea (r ++ [n])

/-- All ids of a forest in depth-first, left-to-right (preorder) order. -/
def forestIds : List Comment → List String
  | [] => []
  | .mk i _ _ _ _ _ _ _ _ r :: rest => i :: (forestIds r ++ forestIds rest)

/-- Depth-first lookup of the first node carrying a given id. -/
def findComment : List Comment → String → Option Comment
  | [], _ => none
  | .mk i t u ca l pc pin e ea r :: rest, x =>
    if i = x then some (.mk i t u ca l pc pin e ea r)
    else
      match findComment r x with
      | some c => some c
      | none => findComment rest x

/-- Generic depth-first modification applying `f` to every shallowest node
whose id matches; `updateComment`, `updateCommentLikes` and
`addReplyToComment` are the three instances of this traversal. -/
def dfsModify : List Comment → String → (Comment → Comment) → List Comment
  | [], _, _ => []
  | .mk i t u ca l pc pin e ea r :: rest, x, f =>
    (if i = x then f (.mk i t u ca l pc pin e ea r)
     else .mk i t u ca l pc pin e ea (dfsModify r x f))
      :: dfsModify rest x f

/-- Replace the `replies` field of a node. -/
def setReplies : Comment → List Comment → Comment
  | .mk i t u ca l pc pin e ea _, rs => .mk i t u ca l pc pin e ea rs

theorem dfsModify_cons (c : Comment) (rest : List Comment) (x : String)
    (f : Comment → Comment) :
    dfsModify (c :: rest) x f
      = (if c._id = x then f c else setReplies c (dfsModify c.replies x f))
        :: dfsModify rest x f := by
  cases c
  simp [dfsModify, setReplies, Comment._id, Comment.replies]

theorem findComment_cons (c : Comment) (rest : List Comment) (x : String) :
    findComment (c :: rest) x
      = if c._id = x then some c
        else
          match findComment c.replies x with
          | some d => some d
          | none => findComment rest x := by
  cases c
  simp [findComment, Comment._id, Comment.replies]

theorem forestIds_cons (c : Comment) (rest : List Comment) :
    forestIds (c :: rest) = c._id :: (forestIds c.replies ++ forestIds rest) := by
  cases c
  simp [forestIds, Comment._id, Comment.replies]

theorem updateComment_eq_dfsModify (x : String) (p : Patch) :
    ∀ cs : List Comment,
      updateComment cs x p = dfsModify cs x (fun c => applyPatch c p)
  | [] => by simp [updateComment, dfsModify]
  | .mk i t u ca l pc pin e ea r :: rest => by
    simp only [updateComment, dfsModify, updateComment_eq_dfsModify x p r,
      updateComment_eq_dfsModify x p rest]

theorem updateCommentLikes_eq_dfsModify (x : String) (nl : List String) :
    ∀ cs : List Comment,
      updateCommentLikes cs x nl = dfsModify cs x (fun c => setLikes c nl)
  | [] => by simp [updateCommentLikes, dfsModify]
  | .mk i t u ca l pc pin e ea r :: rest => by
    simp only [updateCommentLikes, dfsModify, setLikes,
      updateCommentLikes_eq_dfsModify x nl r,
      updateCommentLikes_eq_dfsModify x nl rest]

theorem addReplyToComment_eq_dfsModify (x : String) (n : Comment) :
    ∀ cs : List Comment,
      addReplyToComment cs x n = dfsModify cs x (fun c => appendReply c n)
  | [] => by simp [addReplyToComment, dfsModify]
  | .mk i t u ca l pc pin e ea r :: rest => by
    simp only [addReplyToComment, dfsModify, appendReply,
      addReplyToComment_eq_dfsModify x n r,
      addReplyToComment_eq_dfsModify x n rest]

theorem dfsModify_congr (x : String) (f g : Comment → Comment)
    (h : ∀ c, f c = g c) :
    ∀ cs : List Comment, dfsModify cs x f = dfsModify cs x g
  | [] => by simp [dfsModify]
  | .mk i t u ca l pc pin e ea r :: rest => by
    simp only [dfsModify, h, dfsModify_congr x f g h r,
      dfsModify_congr x f g h rest]

theorem dfsModify_not_found (x : String) (f : Comment → Comment) :
    ∀ cs : List Comment, x ∉ forestIds cs → dfsModify cs x f = cs
  | [], _ => by simp [dfsModify]
  | .mk i t u ca l pc pin e ea r :: rest, h => by
    simp only [forestIds, List.mem_cons, List.mem_append, not_or] at h
    obtain ⟨hi, hr, hrest⟩ := h
    simp only [dfsModify, if_neg (Ne.symm hi), dfsModify_not_found x f r hr,
      dfsModify_not_found x f rest hrest]

theorem findComment_dfsModify (x : String) (f : Comment → Comment)
    (hid : ∀ c, (f c)._id = c._id) :
    ∀ cs : List Comment,
      findComment (dfsModify cs x f) x = (findComment cs x).map f
  | [] => by simp [dfsModify, findComment]
  | .mk i t u ca l pc pin e ea r :: rest => by
    by_cases hix : i = x
    · have hfid : (f (Comment.mk i t u ca l pc pin e ea r))._id = x := by
        rw [hid]
        exact hix
      simp only [dfsModify]
      rw [if_pos hix, findComment_cons, if_pos hfid]
      simp [findComment, hix]
    · simp only [dfsModify]
      rw [if_neg hix]
      simp only [findComment]
      rw [if_neg hix, if_neg hix, findComment_dfsModify x f hid r,
        findComment_dfsModify x f hid rest]
      cases findComment r x <;> simp

theorem dfsModify_append (x : String) (f : Comment → Comment) (c : Comment)
    (hc : c._id = x) :
    ∀ pre post : List Comment,
      dfsModify (pre ++ c :: post) x f
        = dfsModify pre x f ++ f c :: dfsModify post x f
  | [], post => by
    rw [List.nil_append, dfsModify_cons, if_pos hc]
    simp [dfsModify]
  | a :: pre, post => by
    simp only [List.cons_append, dfsModify_cons,
      dfsModify_append x f c hc pre post]

theorem dfsModify_dfsModify (x : String) (f g : Comment → Comment)
    (hid : ∀ c, (f c)._id = c._id) :
    ∀ cs : List Comment,
      dfsModify (dfsModify cs x f) x g = dfsModify cs x (fun c => g (f c))
  | [] => by simp [dfsModify]
  | .mk i t u ca l pc pin e ea r :: rest => by
    by_cases hix : i = x
    · have hfid : (f (Comment.mk i t u ca l pc pin e ea r))._id = x := by
        rw [hid]
        exact hix
      simp only [dfsModify]
      rw [if_pos hix, if_pos hix, dfsModify_cons, if_pos hfid,
        dfsModify_dfsModify x f g hid rest]
    · simp only [dfsModify]
      rw [if_neg hix, if_neg hix]
      simp only [dfsModify]
      rw [if_neg hix, dfsModify_dfsModify x f g hid r,
        dfsModify_dfsModify x f g hid rest]

theorem forestIds_dfsModify (x : String) (f : Comment → Comment)
    (hid : ∀ c, (f c)._id = c._id) (hrep : ∀ c, (f c).replies = c.replies) :
    ∀ cs : List Comment, forestIds (dfsModify cs x f) = forestIds cs
  | [] => by simp [dfsModify]
  | .mk i t u ca l pc pin e ea r :: rest => by
    by_cases hix : i = x
    · simp only [dfsModify]
      rw [if_pos hix, forestIds_cons, hid, hrep,
        forestIds_dfsModify x f hid hrep rest]
      simp [forestIds, Comment._id, Comment.replies]
    · simp only [dfsModify]
      rw [if_neg hix]
      simp only [forestIds]
      rw [forestIds_dfsModify x f hid hrep r,
        forestIds_dfsModify x f hid hrep rest]

theorem findComment_none_iff (x : String) :
    ∀ cs : List Comment, findComment cs x = none ↔ x ∉ forestIds cs
  | [] => by simp [findComment, forestIds]
  | .mk i t u ca l pc pin e ea r :: rest => by
    by_cases hix : i = x
    · simp [findComment, forestIds, hix]
    · simp only [findComment, forestIds]
      rw [if_neg hix]
      cases hr : findComment r x with
      | some c =>
        have hxr : x ∈ forestIds r := by
          by_contra hnot
          have := (findComment_none_iff x r).mpr hnot
          rw [hr] at this
          exact Option.noConfusion this
        simp [hxr]
      | none =>
        have hr' : x ∉ forestIds r := (findComment_none_iff x r).mp hr
        have hrest := findComment_none_iff x rest
        simp [List.mem_cons, List.mem_append, hr', Ne.symm hix, hrest]

theorem id_mem_forestIds :
    ∀ (cs : List Comment) (c : Comment), c ∈ cs → c._id ∈ forestIds cs
  | [], c, h => absurd h (List.not_mem_nil c)
  | a :: rest, c, h => by
    rw [forestIds_cons, List.mem_cons]
    rcases List.mem_cons.mp h with h1 | h2
    · left
      rw [h1]
    · right
      exact List.mem_append_right _ (id_mem_forestIds rest c h2)

theorem replies_ids_mem_forestIds :
    ∀ (cs : List Comment) (c : Comment), c ∈ cs →
      ∀ y ∈ forestIds c.replies, y ∈ forestIds cs
  | [], c, h, _, _ => absurd h (List.not_mem_nil c)
  | a :: rest, c, h, y, hy => by
    rw [forestIds_cons, List.mem_cons]
    rcases List.mem_cons.mp h with h1 | h2
    · right
      exact List.mem_append_left _ (h1 ▸ hy)
    · right
      exact List.mem_append_right _
        (replies_ids_mem_forestIds rest c h2 y hy)

theorem removeNode_not_found (cs : List Comment) (x : String)
    (h : x ∉ forestIds cs) : removeNode cs x = cs := by
  rw [removeNode, List.filter_eq_self]
  intro c hc
  have h1 : c._id ≠ x := fun he => h (he ▸ id_mem_forestIds cs c hc)
  have h2 : ∀ reply ∈ c.replies, reply._id ≠ x := by
    intro reply hrep he
    exact h (he ▸ replies_ids_mem_forestIds cs c hc reply._id
      (id_mem_forestIds c.replies reply hrep))
  simp only [Bool.and_eq_true, bne_iff_ne, ne_eq, Bool.not_eq_true',
    List.any_eq_false, beq_iff_eq]
  exact ⟨h1, h2⟩

theorem findParentUsername_cons (c : Comment) (rest : List Comment)
    (pid : String) :
    findParentUsername (c :: rest) (some pid)
      = if pid = "" then none
        else if c._id = pid then some c.user.username
        else
          if jsTruthy (findParentUsername c.replies (some pid))
          then findParentUsername c.replies (some pid)
          else findParentUsername rest (some pid) := by
  cases c
  simp [findParentUsername, Comment._id, Comment.user, Comment.replies]

theorem findParentUsername_not_found (x : String) :
    ∀ cs : List Comment, x ∉ forestIds cs →
      findParentUsername cs (some x) = none
  | [], _ => by simp [findParentUsername]
  | .mk i t u ca l pc pin e ea r :: rest, h => by
    simp only [forestIds, List.mem_cons, List.mem_append, not_or] at h
    obtain ⟨hi, hr, hrest⟩ := h
    by_cases hx0 : x = ""
    · rw [findParentUsername_cons, if_pos hx0]
    · rw [findParentUsername_cons, if_neg hx0]
      simp only [Comment._id, Comment.replies]
      rw [if_neg (Ne.symm hi), findParentUsername_not_found x r hr,
        findParentUsername_not_found x rest hrest]
      simp [jsTruthy]

theorem findParentUsername_found (x : String) :
    ∀ (cs : List Comment) (c : Comment), x ≠ "" → findComment cs x = some c →
      c.user.username ≠ "" →
      findParentUsername cs (some x) = some c.user.username
  | [], c, _, hfc, _ => by simp [findComment] at hfc
  | .mk i t u ca l pc pin e ea r :: rest, c, hx0, hfc, hu => by
    by_cases hix : i = x
    · simp only [findComment] at hfc
      rw [if_pos hix] at hfc
      injection hfc with hc
      rw [findParentUsername_cons, if_neg hx0]
      simp only [Comment._id, Comment.user]
      rw [if_pos hix, ← hc]
    · simp only [findComment] at hfc
      rw [if_neg hix] at hfc
      cases hr : findComment r x with
      | some d =>
        rw [hr] at hfc
        simp at hfc
        have hrec := findParentUsername_found x r c hx0 (hfc ▸ hr) hu
        rw [findParentUsername_cons, if_neg hx0]
        simp only [Comment._id, Comment.replies]
        rw [if_neg hix, hrec]
        simp [jsTruthy, hu]
      | none =>
        rw [hr] at hfc
        have hnr : x ∉ forestIds r := (findComment_none_iff x r).mp hr
        have hrecnone := findParentUsername_not_found x r hnr
        have hrec := findParentUsername_found x rest c hx0 hfc hu
        rw [findParentUsername_cons, if_neg hx0]
        simp only [Comment._id, Comment.replies]
        rw [if_neg hix, hrecnone, hrec]
        simp [jsTruthy]

theorem applyPatch_bodyPatch (c : Comment) (b : String) :
    applyPatch c (bodyPatch b) = setText c b := by
  cases c
  rfl

theorem applyPatch_bodyPatch_twice (c : Comment) (b z : String) :
    applyPatch (applyPatch c (bodyPatch b)) (bodyPatch z)
      = applyPatch c (bodyPatch z) := by
  cases c
  rfl

theorem applyPatch_likesPatch (c : Comment) (l : List String) :
    applyPatch c (likesPatch l) = setLikes c l := by
  cases c
  rfl

theorem setText_id (c : Comment) (b : String) : (setText c b)._id = c._id := by
  cases c
  rfl

theorem setText_replies (c : Comment) (b : String) :
    (setText c b).replies = c.replies := by
  cases c
  rfl

theorem setLikes_id (c : Comment) (l : List String) :
    (setLikes c l)._id = c._id := by
  cases c
  rfl

theorem setLikes_replies (c : Comment) (l : List String) :
    (setLikes c l).replies = c.replies := by
  cases c
  rfl

theorem appendReply_id (c n : Comment) : (appendReply c n)._id = c._id := by
  cases c
  rfl

theorem appendReply_replies (c n : Comment) :
    (appendReply c n).replies = c.replies ++ [n] := by
  cases c
  rfl

theorem applyPatch_id_of_none (c : Comment) (p : Patch) (h : p._id = none) :
    (applyPatch c p)._id = c._id := by
  cases c
  simp [applyPatch, Comment._id, h]

theorem applyPatch_replies_of_none (c : Comment) (p : Patch)
    (h : p.replies = none) : (applyPatch c p).replies = c.replies := by
  cases c
  simp [applyPatch, Comment.replies, h]

/-- The millisecond delay of the `setTimeout` that fires `controller.abort()`
around the blog-detail fetch in `fetchBlogAndIncrementView`. -/
def blogDetailTimeoutMs : Nat := 10000

/-- `maxRetries` of `BlogDetailPage`. -/
def blogDetailMaxRetries : Nat := 3

/-- The timeout-specific message set by the abort branch of the catch
handler of `fetchBlogAndIncrementView`. -/
def timeoutErrorMessage : String := "Request timed out. Please check your connection."

/-- The generic failure message set once the retry budget is exhausted. -/
def blogLoadFailMessage : String :=
  "Failed to load blog. It may not exist or the server is unreachable."

/-- Outcome of the catch handler of `fetchBlogAndIncrementView`: either a
user-facing error string is stored, or a retry is scheduled by bumping
`retryCount`. -/
inductive FetchFailureAction where
  | surfaceError (msg : String)
  | scheduleRetry (next : Nat)
deriving DecidableEq

/-- The catch handler of `fetchBlogAndIncrementView`: `errName` is the
thrown value's `name` when it is an `Error` (`none` otherwise), matching
`err instanceof Error && err.name === "AbortError"`. -/
def classifyBlogDetailFailure (errName : Option String) (retryCount : Nat) :
    FetchFailureAction :=
  if errName = some "AbortError" then .surfaceError timeoutErrorMessage
  else if retryCount < blogDetailMaxRetries then .scheduleRetry (retryCount + 1)
  else .surfaceError blogLoadFailMessage

/-- `maxLength` of the comment input components. -/
def commentInputMaxLength : Nat := 500

/-- `value.slice(0, n)`: the first `n` characters. -/
def jsSlice (s : String) (n : Nat) : String := (s.toList.take n).asString

/-- The events of the second `CommentInput` variant that write `commentText`:
the textarea `onChange` (which stores `e.target.value.slice(0, maxLength)`),
`handleEmojiClick` (which stores `prev + emojiObject.emoji`), and the reset
`setCommentText("")` on successful submission. -/
inductive CommentInputEvent where
  | textChange (value : String)
  | emojiClick (emoji : String)
  | submitSuccess
deriving DecidableEq

/-- Whether an event is an emoji insertion. -/
def CommentInputEvent.isEmojiClick : CommentInputEvent → Bool
  | .emojiClick _ => true
  | _ => false

/-- One `commentText` state transition of `CommentInput`. -/
def commentTextStep (commentText : String) : CommentInputEvent → String
  | .textChange value => jsSlice value commentInputMaxLength
  | .emojiClick emoji => commentText ++ emoji
  | .submitSuccess => ""

/-- The `commentText` state after a sequence of events, starting from the
initial `useState("")`. -/
def runCommentInput (events : List CommentInputEvent) : String :=
  events.foldl commentTextStep ""

/-- An example author. -/
def cUser : User := ⟨"u0", "bob", "bob@example.com", none⟩

/-- Depth-two reply in the `1 → 2 → 3` chain. -/
def c3node : Comment := .mk "3" "r3" cUser "t3" [] (some "2") none none none []

/-- Depth-one reply in the `1 → 2 → 3` chain. -/
def c2node : Comment :=
  .mk "2" "r2" cUser "t2" [] (some "1") none none none [c3node]

/-- Root of the `1 → 2 → 3` chain. -/
def c1node : Comment := .mk "1" "r1" cUser "t1" [] none none none none [c2node]

/-- The forest with the two-level reply chain `1 → 2 → 3`. -/
def chainForest : List Comment := [c1node]

/-- A childless top-level comment with id `1`. -/
def soloNode : Comment := .mk "1" "r1" cUser "t1" [] none none none none []

/-- A fresh leaf with id `2`. -/
def newLeaf : Comment := .mk "2" "r2" cUser "t2" [] (some "1") none none none []

/-- A childless top-level comment whose id is the empty string. -/
def emptyIdNode : Comment := .mk "" "root" cUser "t0" [] none none none none []

/-- A top-level comment with id `d` and body `first`. -/
def dupA : Comment := .mk "d" "first" cUser "ta" [] none none none none []

/-- A second top-level comment carrying the same id `d`, body `second`. -/
def dupB : Comment := .mk "d" "second" cUser "tb" [] none none none none []

/-- An author whose display name is the empty string. -/
def emptyNameUser : User := ⟨"u2", "", "e@example.com", none⟩

/-- A nested comment (id `b`) whose author has an empty username. -/
def cexInner : Comment :=
  .mk "b" "inner" emptyNameUser "t" [] (some "a") none none none []

/-- A root comment (id `a`) containing `cexInner`. -/
def cexOuter : Comment :=
  .mk "a" "outer" emptyNameUser "t" [] none none none none [cexInner]

/-- A 500-character text. -/
def fiveHundredAs : String := (List.replicate 500 'a').asString

/-- C1: the claim states that `removeNode` deletes exactly the targeted
node's subtree wherever it sits and preserves every other node; on the
`1 → 2 → 3` chain the source's `handleDelete` filter instead deletes the
whole top-level thread when the target is the depth-one reply `2`
(yielding `[]` rather than `[{id 1, children []}]`), and removes nothing at
all when the target is the depth-two node `3`, which `findComment` shows is
present. -/
theorem C1_handleDelete_on_chain :
    removeNode chainForest "2" = []
      ∧ removeNode chainForest "3" = chainForest
      ∧ findComment chainForest "3" = some c3node := by
  refine ⟨rfl, rfl, ?_⟩
  simp [findComment, chainForest, c1node, c2node, c3node]

/-- C2: the claim states that inserting a fresh leaf under an existing parent
and then removing the leaf's id restores the original forest; in the source,
inserting id `2` under the sole comment `1` and then deleting `2` removes the
entire thread, leaving `[]` instead of the original one-comment forest. -/
theorem C2_insert_then_delete :
    insertReply [soloNode] (some "1") newLeaf = [appendReply soloNode newLeaf]
      ∧ removeNode (insertReply [soloNode] (some "1") newLeaf) "2" = []
      ∧ [soloNode] ≠ ([] : List Comment) := by
  have h1 : insertReply [soloNode] (some "1") newLeaf
      = [appendReply soloNode newLeaf] := by
    simp [insertReply, addReplyToComment, soloNode, newLeaf, appendReply]
  refine ⟨h1, ?_, List.cons_ne_nil _ _⟩
  rw [h1]
  rfl

/-- C3 counterexample: on a forest with two top-level nodes both carrying id
`d`, `updateComment` with the body patch changes the text of both nodes, so
it is false that only the first node in depth-first order is affected. -/
theorem C3_counterexample :
    (updateComment [dupA, dupB] "d" (bodyPatch "b")).map Comment.text
        = ["b", "b"]
      ∧ dupB.text = "second" := by
  constructor
  · simp [updateComment, dupA, dupB, applyPatch, bodyPatch, Comment.text]
  · rfl

/-- C3 (amended): when several nodes share an id, each of the three
operations affects every node carrying the id that is not inside another
matching node's subtree — in particular every matching top-level position,
wherever it occurs — and the affected node's own subtree is left untouched
(its replies are unchanged by a patch without a `replies` field, and only
appended to by a reply insertion). -/
theorem C3_amended_duplicate_policy (x : String) (p : Patch) (l : List String)
    (n c : Comment) (hc : c._id = x) (hp : p.replies = none) :
    ∀ pre post : List Comment,
      updateComment (pre ++ c :: post) x p
          = updateComment pre x p
            ++ applyPatch c p :: updateComment post x p
        ∧ updateCommentLikes (pre ++ c :: post) x l
          = updateCommentLikes pre x l
            ++ setLikes c l :: updateCommentLikes post x l
        ∧ addReplyToComment (pre ++ c :: post) x n
          = addReplyToComment pre x n
            ++ appendReply c n :: addReplyToComment post x n
        ∧ (applyPatch c p).replies = c.replies
        ∧ (appendReply c n).replies = c.replies ++ [n] := by
  intro pre post
  refine ⟨?_, ?_, ?_, applyPatch_replies_of_none c p hp,
    appendReply_replies c n⟩
  · rw [updateComment_eq_dfsModify x p (pre ++ c :: post),
      updateComment_eq_dfsModify x p pre, updateComment_eq_dfsModify x p post,
      dfsModify_append x _ c hc pre post]
  · rw [updateCommentLikes_eq_dfsModify x l (pre ++ c :: post),
      updateCommentLikes_eq_dfsModify x l pre,
      updateCommentLikes_eq_dfsModify x l post,
      dfsModify_append x _ c hc pre post]
  · rw [addReplyToComment_eq_dfsModify x n (pre ++ c :: post),
      addReplyToComment_eq_dfsModify x n pre,
      addReplyToComment_eq_dfsModify x n post,
      dfsModify_append x _ c hc pre post]

/-- Witness for C3: the amended duplicate policy applied to the concrete
two-duplicate forest. -/
theorem C3_amended_duplicate_policy_witness :
    (dupB._id = "d" ∧ (bodyPatch "b").replies = none)
      ∧ updateComment ([dupA] ++ dupB :: []) "d" (bodyPatch "b")
          = updateComment [dupA] "d" (bodyPatch "b")
            ++ applyPatch dupB (bodyPatch "b")
              :: updateComment [] "d" (bodyPatch "b") := by
  refine ⟨⟨rfl, rfl⟩, ?_⟩
  exact (C3_amended_duplicate_policy "d" (bodyPatch "b") ["u1"] newLeaf dupB
    rfl rfl [dupA] []).1

/-- C4 counterexample: the empty-string id matches no node of the
one-comment forest, yet `insertReply` with it is not a no-op: the falsy
`replyingTo` makes `handleReplySubmit` append the new comment at top level,
so the result is not deep-equal to the input forest. -/
theorem C4_counterexample :
    ("" ∉ forestIds [soloNode])
      ∧ insertReply [soloNode] (some "") newLeaf = [soloNode, newLeaf]
      ∧ [soloNode, newLeaf] ≠ [soloNode] := by
  refine ⟨?_, ?_, ?_⟩
  · simp [forestIds, soloNode]
  · simp [insertReply]
  · simp

/-- C4 (amended): with a target id that occurs nowhere in the forest,
`patchNode` (`updateComment`), `replaceLikes` (`updateCommentLikes`) and
`removeNode` (`handleDelete`) return the forest unchanged, and so does
`insertReply` provided the id is nonempty; the empty-string id is falsy in
`handleReplySubmit`, which then appends the new comment at the end of the
top-level sequence instead of a no-op. -/
theorem C4_not_found_noop (cs : List Comment) (x : String) (p : Patch)
    (l : List String) (n : Comment) (hx : x ∉ forestIds cs) :
    (x ≠ "" → insertReply cs (some x) n = cs)
      ∧ updateComment cs x p = cs
      ∧ updateCommentLikes cs x l = cs
      ∧ removeNode cs x = cs
      ∧ insertReply cs (some "") n = cs ++ [n] := by
  refine ⟨?_, ?_, ?_, removeNode_not_found cs x hx, by simp [insertReply]⟩
  · intro hx0
    simp only [insertReply]
    rw [if_neg hx0, addReplyToComment_eq_dfsModify x n cs]
    exact dfsModify_not_found x _ cs hx
  · rw [updateComment_eq_dfsModify x p cs]
    exact dfsModify_not_found x _ cs hx
  · rw [updateCommentLikes_eq_dfsModify x l cs]
    exact dfsModify_not_found x _ cs hx

/-- Witness for C4: `zz` is a nonempty id occurring nowhere in the chain
forest, and all four operations on it are no-ops there. -/
theorem C4_not_found_noop_witness :
    ("zz" ∉ forestIds chainForest ∧ ("zz" : String) ≠ "")
      ∧ insertReply chainForest (some "zz") newLeaf = chainForest
      ∧ updateComment chainForest "zz" (bodyPatch "b") = chainForest
      ∧ updateCommentLikes chainForest "zz" ["u1"] = chainForest
      ∧ removeNode chainForest "zz" = chainForest := by
  have hx : "zz" ∉ forestIds chainForest := by
    simp [forestIds, chainForest, c1node, c2node, c3node]
  obtain ⟨h1, h2, h3, h4, _⟩ :=
    C4_not_found_noop chainForest "zz" (bodyPatch "b") ["u1"] newLeaf hx
  exact ⟨⟨hx, by decide⟩, h1 (by decide), h2, h3, h4⟩

/-- C5: on a unique-id forest containing `x`, patching `{body: b}` preserves
the id sequence in depth-first order (hence every node's position), rewrites
exactly the target node to the same node with body `b`, and changes nothing
except the target's body: re-normalising the body of `x` on both the patched
and the original forest yields identical forests. -/
theorem C5_patch_body_frame (cs : List Comment) (x b : String)
    (hnd : (forestIds cs).Nodup) (hx : x ∈ forestIds cs) :
    forestIds (updateComment cs x (bodyPatch b)) = forestIds cs
      ∧ (∃ c0, findComment cs x = some c0
          ∧ findComment (updateComment cs x (bodyPatch b)) x
              = some (setText c0 b))
      ∧ ∀ z, updateComment (updateComment cs x (bodyPatch b)) x (bodyPatch z)
          = updateComment cs x (bodyPatch z) := by
  have hid : ∀ c, (applyPatch c (bodyPatch b))._id = c._id :=
    fun c => applyPatch_id_of_none c _ rfl
  have hrep : ∀ c, (applyPatch c (bodyPatch b)).replies = c.replies :=
    fun c => applyPatch_replies_of_none c _ rfl
  refine ⟨?_, ?_, ?_⟩
  · rw [updateComment_eq_dfsModify x (bodyPatch b) cs]
    exact forestIds_dfsModify x _ hid hrep cs
  · obtain ⟨c0, hc0⟩ : ∃ c0, findComment cs x = some c0 := by
      cases hfc : findComment cs x with
      | some c0 => exact ⟨c0, rfl⟩
      | none => exact absurd hx ((findComment_none_iff x cs).mp hfc)
    refine ⟨c0, hc0, ?_⟩
    rw [updateComment_eq_dfsModify x (bodyPatch b) cs,
      findComment_dfsModify x _ hid cs, hc0]
    simp [applyPatch_bodyPatch]
  · intro z
    rw [updateComment_eq_dfsModify x (bodyPatch b) cs,
      updateComment_eq_dfsModify x (bodyPatch z),
      dfsModify_dfsModify x _ _ hid cs,
      updateComment_eq_dfsModify x (bodyPatch z) cs]
    exact dfsModify_congr x _ _ (fun c => applyPatch_bodyPatch_twice c b z) cs

/-- Witness for C5: the body-patch frame property applied to the chain
forest at the nested node `2`. -/
theorem C5_patch_body_frame_witness :
    ((forestIds chainForest).Nodup ∧ "2" ∈ forestIds chainForest)
      ∧ (forestIds (updateComment chainForest "2" (bodyPatch "B"))
            = forestIds chainForest
          ∧ (∃ c0, findComment chainForest "2" = some c0
              ∧ findComment
                  (updateComment chainForest "2" (bodyPatch "B")) "2"
                  = some (setText c0 "B"))
          ∧ ∀ z, updateComment
                (updateComment chainForest "2" (bodyPatch "B")) "2"
                (bodyPatch z)
              = updateComment chainForest "2" (bodyPatch z)) := by
  have h1 : (forestIds chainForest).Nodup := by
    simp [forestIds, chainForest, c1node, c2node, c3node]
  have h2 : "2" ∈ forestIds chainForest := by
    simp [forestIds, chainForest, c1node, c2node, c3node]
  exact ⟨⟨h1, h2⟩, C5_patch_body_frame chainForest "2" "B" h1 h2⟩

/-- C6: `updateCommentLikes` (the spec's `replaceLikes`) coincides with
`updateComment` (`patchNode`) applied with the patch containing only the
`likes` field, on every forest, target id and likes list. -/
theorem C6_replaceLikes_eq_patchNode (cs : List Comment) (x : String)
    (l : List String) :
    updateCommentLikes cs x l = updateComment cs x (likesPatch l) := by
  rw [updateCommentLikes_eq_dfsModify x l cs,
    updateComment_eq_dfsModify x (likesPatch l) cs]
  exact dfsModify_congr x _ _ (fun c => (applyPatch_likesPatch c l).symm) cs

/-- C7 counterexample: on the unique-id forest whose sole node has the
empty-string id, that node is findable by depth-first search, yet
`insertReply` with that parent id appends the new comment at the top level
(the falsy `replyingTo` branch of `handleReplySubmit`) instead of under the
found node as the claim demands. -/
theorem C7_counterexample :
    (forestIds [emptyIdNode]).Nodup
      ∧ findComment [emptyIdNode] "" = some emptyIdNode
      ∧ insertReply [emptyIdNode] (some "") newLeaf = [emptyIdNode, newLeaf]
      ∧ insertReply [emptyIdNode] (some "") newLeaf
          ≠ [appendReply emptyIdNode newLeaf] := by
  refine ⟨?_, ?_, ?_, ?_⟩
  · simp [forestIds, emptyIdNode]
  · simp [findComment, emptyIdNode]
  · simp [insertReply]
  · simp [insertReply, emptyIdNode, newLeaf, appendReply]

/-- C7 (amended): with no parent id the new comment is appended at the end
of the top-level sequence; on a unique-id forest whose node `pid` is found by
depth-first search, `insertReply` with a nonempty `pid` rewrites exactly that
node to itself with the new comment appended after its existing children; the
empty-string parent id is falsy in `handleReplySubmit` and appends at top
level like `null`; and the concrete scenario
`insertReply([{id 1}], "1", {id 2})` produces the nested forest. -/
theorem C7_insertReply_spec :
    (∀ (cs : List Comment) (n : Comment), insertReply cs none n = cs ++ [n])
      ∧ (∀ (cs : List Comment) (pid : String) (n c0 : Comment),
          (forestIds cs).Nodup → pid ≠ "" → findComment cs pid = some c0 →
          findComment (insertReply cs (some pid) n) pid
            = some (appendReply c0 n))
      ∧ (∀ (cs : List Comment) (n : Comment),
          insertReply cs (some "") n = cs ++ [n])
      ∧ insertReply [soloNode] (some "1") newLeaf
          = [appendReply soloNode newLeaf] := by
  refine ⟨fun cs n => rfl, ?_, fun cs n => by simp [insertReply], ?_⟩
  · intro cs pid n c0 hnd hpid hfc
    simp only [insertReply]
    rw [if_neg hpid, addReplyToComment_eq_dfsModify pid n cs,
      findComment_dfsModify pid _ (fun c => appendReply_id c n) cs, hfc]
    rfl
  · simp [insertReply, addReplyToComment, soloNode, newLeaf, appendReply]

/-- Witness for C7: the depth-first insert property applied to the
one-comment forest at the nonempty parent id `1`. -/
theorem C7_insertReply_spec_witness :
    ((forestIds [soloNode]).Nodup ∧ ("1" : String) ≠ ""
        ∧ findComment [soloNode] "1" = some soloNode)
      ∧ findComment (insertReply [soloNode] (some "1") newLeaf) "1"
          = some (appendReply soloNode newLeaf) := by
  have h1 : (forestIds [soloNode]).Nodup := by
    simp [forestIds, soloNode]
  have h2 : findComment [soloNode] "1" = some soloNode := by
    simp [findComment, soloNode]
  exact ⟨⟨h1, by decide, h2⟩,
    C7_insertReply_spec.2.1 [soloNode] "1" newLeaf soloNode h1 (by decide) h2⟩

/-- C8 counterexample: in a unique-id forest, node `b` exists at depth two
but its author's username is the empty string, and `findParentUsername`
returns `null` rather than that username, because the `if (found)` truthiness
check discards an empty-string result bubbling up from the recursion. -/
theorem C8_counterexample :
    (forestIds [cexOuter]).Nodup
      ∧ findComment [cexOuter] "b" = some cexInner
      ∧ cexInner.user.username = ""
      ∧ findParentUsername [cexOuter] (some "b") = none := by
  refine ⟨?_, ?_, rfl, ?_⟩
  · simp [forestIds, cexOuter, cexInner]
  · simp [findComment, cexOuter, cexInner]
  · simp [findParentUsername, cexOuter, cexInner, emptyNameUser, jsTruthy]

/-- C8 (amended): on a unique-id forest, `findParentUsername` returns `null`
whenever no node carries the queried id, and returns the author username of
the node found by depth-first search provided the queried id and that
username are nonempty (JavaScript truthiness makes the empty id and an
empty nested username degrade to `null`). -/
theorem C8_findParentUsername_amended (cs : List Comment) (x : String)
    (hnd : (forestIds cs).Nodup) :
    (x ∉ forestIds cs → findParentUsername cs (some x) = none)
      ∧ ∀ c : Comment, x ≠ "" → findComment cs x = some c →
          c.user.username ≠ "" →
          findParentUsername cs (some x) = some c.user.username :=
  ⟨findParentUsername_not_found x cs,
    fun c hx0 hfc hu => findParentUsername_found x cs c hx0 hfc hu⟩

/-- Witness for C8: on the chain forest, the username of the depth-three
node `3` is returned, and an absent id yields `null`. -/
theorem C8_findParentUsername_amended_witness :
    ((forestIds chainForest).Nodup ∧ ("3" : String) ≠ ""
        ∧ findComment chainForest "3" = some c3node
        ∧ c3node.user.username ≠ ""
        ∧ "zz" ∉ forestIds chainForest)
      ∧ findParentUsername chainForest (some "3") = some c3node.user.username
      ∧ findParentUsername chainForest (some "zz") = none := by
  have hnd : (forestIds chainForest).Nodup := by
    simp [forestIds, chainForest, c1node, c2node, c3node]
  have hfc : findComment chainForest "3" = some c3node := by
    simp [findComment, chainForest, c1node, c2node, c3node]
  have hzz : "zz" ∉ forestIds chainForest := by
    simp [forestIds, chainForest, c1node, c2node, c3node]
  refine ⟨⟨hnd, by decide, hfc, by decide, hzz⟩, ?_, ?_⟩
  · exact (C8_findParentUsername_amended chainForest "3" hnd).2 c3node
      (by decide) hfc (by decide)
  · exact (C8_findParentUsername_amended chainForest "zz" hnd).1 hzz

/-- C9: the blog-detail fetch aborts after a fixed ten-second timeout
(10000 ms), and the catch handler of `fetchBlogAndIncrementView` surfaces
the timeout-specific "Request timed out" message exactly when the failure is
an `AbortError`; any other failure either schedules a retry or surfaces the
generic load-failure message. -/
theorem C9_blog_detail_timeout :
    blogDetailTimeoutMs = 10000
      ∧ (∀ rc, classifyBlogDetailFailure (some "AbortError") rc
          = FetchFailureAction.surfaceError timeoutErrorMessage)
      ∧ ∀ (e : Option String) (rc : Nat),
          classifyBlogDetailFailure e rc
              = FetchFailureAction.surfaceError timeoutErrorMessage →
          e = some "AbortError" := by
  refine ⟨rfl, fun rc => by simp [classifyBlogDetailFailure], ?_⟩
  intro e rc h
  by_cases he : e = some "AbortError"
  · exact he
  · exfalso
    simp only [classifyBlogDetailFailure] at h
    rw [if_neg he] at h
    by_cases hrc : rc < blogDetailMaxRetries
    · rw [if_pos hrc] at h
      exact FetchFailureAction.noConfusion h
    · rw [if_neg hrc] at h
      injection h with hm
      exact absurd hm (by decide)

/-- Witness for C9: an `AbortError` at retry count zero surfaces the timeout
message, and conversely the classification equation is discharged at that
concrete input. -/
theorem C9_blog_detail_timeout_witness :
    classifyBlogDetailFailure (some "AbortError") 0
        = FetchFailureAction.surfaceError timeoutErrorMessage
      ∧ (some "AbortError" : Option String) = some "AbortError" := by
  refine ⟨C9_blog_detail_timeout.2.1 0, ?_⟩
  exact C9_blog_detail_timeout.2.2 (some "AbortError") 0
    (C9_blog_detail_timeout.2.1 0)

/-- C10 counterexample: the claim asserts the stored comment text never
exceeds 500 characters because every change handler truncates; but
`handleEmojiClick` appends without truncating, so after a maximal textarea
change followed by an emoji click the stored text has 501 characters. -/
theorem C10_counterexample :
    commentInputMaxLength = 500
      ∧ (runCommentInput
          [CommentInputEvent.textChange fiveHundredAs,
            CommentInputEvent.emojiClick "e"]).length = 501 := by
  refine ⟨rfl, ?_⟩
  have h2 : commentTextStep "" (CommentInputEvent.textChange fiveHundredAs)
      = fiveHundredAs := by
    show jsSlice fiveHundredAs commentInputMaxLength = fiveHundredAs
    rw [jsSlice, fiveHundredAs, List.toList_asString, List.take_replicate]
    have hmin : min commentInputMaxLength 500 = 500 := rfl
    rw [hmin]
  have h1 : runCommentInput
      [CommentInputEvent.textChange fiveHundredAs,
        CommentInputEvent.emojiClick "e"] = fiveHundredAs ++ "e" := by
    show commentTextStep
      (commentTextStep "" (CommentInputEvent.textChange fiveHundredAs))
      (CommentInputEvent.emojiClick "e") = fiveHundredAs ++ "e"
    rw [h2]
    rfl
  rw [h1, String.length_append, fiveHundredAs, List.length_asString,
    List.length_replicate]
  rfl

/-- Bound preservation for a single non-emoji event. -/
theorem commentTextStep_length_le (s : String) (e : CommentInputEvent)
    (he : e.isEmojiClick = false) (hs : s.length ≤ commentInputMaxLength) :
    (commentTextStep s e).length ≤ commentInputMaxLength := by
  cases e with
  | textChange v =>
    show ((v.toList.take commentInputMaxLength).asString).length ≤ _
    rw [List.length_asString, List.length_take]
    exact min_le_left _ _
  | emojiClick em => simp [CommentInputEvent.isEmojiClick] at he
  | submitSuccess =>
    show ("" : String).length ≤ commentInputMaxLength
    simp [commentInputMaxLength]

/-- Bound preservation along a sequence of non-emoji events. -/
theorem commentText_length_bound :
    ∀ (events : List CommentInputEvent) (s : String),
      (∀ e ∈ events, e.isEmojiClick = false) →
      s.length ≤ commentInputMaxLength →
      (events.foldl commentTextStep s).length ≤ commentInputMaxLength := by
  intro events
  induction events with
  | nil =>
    intro s _ hs
    simpa using hs
  | cons e es ih =>
    intro s hall hs
    rw [List.foldl_cons]
    exact ih (commentTextStep s e)
      (fun e' he' => hall e' (List.mem_cons_of_mem _ he'))
      (commentTextStep_length_le s e (hall e (List.mem_cons_self _ _)) hs)

/-- C10 (amended): the textarea change handler truncates its input to the
500-character `maxLength`, so along any event sequence containing no emoji
click the stored comment text never exceeds 500 characters; the emoji-click
handler appends without truncating and breaks the invariant. -/
theorem C10_truncation_invariant (events : List CommentInputEvent)
    (h : ∀ e ∈ events, e.isEmojiClick = false) :
    (runCommentInput events).length ≤ commentInputMaxLength := by
  exact commentText_length_bound events "" h (by simp [commentInputMaxLength])

/-- Witness for C10: a small emoji-free event sequence keeps the text within
the limit. -/
theorem C10_truncation_invariant_witness :
    (∀ e ∈ [CommentInputEvent.textChange "hello",
        CommentInputEvent.submitSuccess], e.isEmojiClick = false)
      ∧ (runCommentInput [CommentInputEvent.textChange "hello",
          CommentInputEvent.submitSuccess]).length ≤ commentInputMaxLength := by
  have h : ∀ e ∈ [CommentInputEvent.textChange "hello",
      CommentInputEvent.submitSuccess], e.isEmojiClick = false := by
    decide
  exact ⟨h, C10_truncation_invariant _ h⟩
